import Mathlib

/-!
Verification of the "Need A Hand?" conversational intake-and-matching engine

A shallow embedding of the core logic of `src/app.ts`: the category catalog,
the keyword classifier (`detectCategory`), the intake wizard state machine
(`submitProblem`, `answerBoolean`, `answerSelect`, `prevFaq`, `nextFaq`,
`close`, reopen), the matcher/ranker (`rankWorkers` / `scoreWorker`), the
booking emitter (`book` / `createJobForWorker`), and the job status
transitions (`cancelJob` / `acceptJob` / `completeJob` with their UI call
sites).  Numeric scores are modelled over `ℚ` (the source computes over JS
numbers); JS strings are modelled as Lean `String`s with hand-rolled,
kernel-evaluable versions of `toLowerCase`, `trim`, `split(/\W+/)` and
`includes`.
-/

namespace NeedAHand

/-! ## JS string primitives -/

/-- A JS "word character" for the regex class `\w`: `[A-Za-z0-9_]`. -/
def isWordChar (c : Char) : Bool :=
  c.isAlphanum || c == '_'

/-- The whitespace characters removed by `String.prototype.trim`
(restricted to the ASCII range, which is all that occurs here). -/
def isJsSpace (c : Char) : Bool :=
  c == ' ' || c == '\t' || c == '\n' || c == '\r' || c == '\x0b' || c == '\x0c'

/-- `String.prototype.toLowerCase` (ASCII case mapping). -/
def lowerStr (s : String) : String :=
  String.mk (s.data.map Char.toLower)

/-- `String.prototype.trim`: drop leading and trailing whitespace. -/
def jsTrim (s : String) : String :=
  String.mk (((s.data.dropWhile isJsSpace).reverse.dropWhile isJsSpace).reverse)

/-- Does `l` start with `pat`? (JS `startsWith` on char lists.) -/
def startsL : List Char → List Char → Bool
  | [], _ => true
  | _ :: _, [] => false
  | p :: ps, c :: cs => p == c && startsL ps cs

/-- Is `pat` a contiguous subsequence of `l`? (JS `String.prototype.includes`.) -/
def containsL (pat : List Char) : List Char → Bool
  | [] => pat.isEmpty
  | c :: cs => startsL pat (c :: cs) || containsL pat cs

/-- `hay.includes(pat)` on strings. -/
def jsIncludes (hay pat : String) : Bool :=
  containsL pat.data hay.data

/-- `str.split(/\W+/)` on char lists: the chunks between maximal runs of
non-word characters.  Leading/trailing separators produce empty chunks, and
the split of the empty string is `[[]]`, exactly as in JS.  A word character
extends the first chunk; a non-word character followed by another non-word
character belongs to the same separator run, otherwise it opens a fresh
empty chunk. -/
def splitW : List Char → List (List Char)
  | [] => [[]]
  | c :: cs =>
    if isWordChar c then
      match splitW cs with
      | [] => [[c]]
      | h :: t => (c :: h) :: t
    else
      match cs with
      | [] => [[], []]
      | d :: _ => if isWordChar d then [] :: splitW cs else splitW cs

/-- `str.toLowerCase().split(/\W+/)` as a list of strings. -/
def splitTokens (s : String) : List String :=
  (splitW s.data).map String.mk

/-! ## Domain model (from `src/app.ts`) -/

/-- `type ServiceCategoryId = 'Plumber' | 'Electrician' | 'Painter' | 'Driver' | 'General'` -/
inductive ServiceCategoryId where
  | Plumber | Electrician | Painter | Driver | General
deriving DecidableEq, Repr

/-- The runtime string value of a `ServiceCategoryId` (in JS the id *is* the
string, used e.g. in the `w.specialty === s.category` comparison). -/
def catStr : ServiceCategoryId → String
  | .Plumber => "Plumber"
  | .Electrician => "Electrician"
  | .Painter => "Painter"
  | .Driver => "Driver"
  | .General => "General"

/-- `type FaqType = 'text' | 'boolean' | 'select'` -/
inductive FaqType where
  | text | bool | select
deriving DecidableEq, Repr

/-- `interface FaqItem` -/
structure FaqItem where
  id : String
  type : FaqType
  question : String
  options : Option (List String) := none
deriving DecidableEq, Repr

/-- `interface CategoryDefinition` -/
structure CategoryDefinition where
  id : ServiceCategoryId
  title : String
  icon : String
  keywords : List String
  faqs : List FaqItem
deriving DecidableEq, Repr

/-- The static catalog `CATEGORY_DEFS` of `src/app.ts`, transcribed verbatim
(icons omitted as they are non-ASCII glyphs irrelevant to the logic). -/
def CATEGORY_DEFS : List CategoryDefinition :=
  [ { id := .Plumber, title := "Plumber", icon := "",
      keywords := ["leak", "pipe", "sink", "drain", "toilet", "water heater",
                   "clog", "faucet", "sewer"],
      faqs :=
        [ { id := "location", type := .select, question := "Where is the issue located?",
            options := some ["Kitchen", "Bathroom", "Basement", "Laundry", "Outdoor"] },
          { id := "severity", type := .select, question := "How severe is the issue?",
            options := some ["Minor drip", "Slow drain", "No water", "Flooding"] },
          { id := "shutoff", type := .bool, question := "Have you tried shutting off the water?" },
          { id := "age", type := .select, question := "Approximate age of the fixture?",
            options := some ["<1 year", "1-3 years", "3-5 years", "5+ years", "Unknown"] } ] },
    { id := .Electrician, title := "Electrician", icon := "",
      keywords := ["outlet", "breaker", "fuse", "light", "wiring", "short",
                   "power", "spark", "switch"],
      faqs :=
        [ { id := "scope", type := .select, question := "Which is affected?",
            options := some ["Single outlet", "Room", "Multiple rooms", "Whole home"] },
          { id := "breaker", type := .bool, question := "Did the breaker trip?" },
          { id := "smell", type := .bool, question := "Do you notice burning smell?" },
          { id := "age", type := .select, question := "Age of electrical system?",
            options := some ["<5 years", "5-10 years", "10-20 years", "20+ years", "Unknown"] } ] },
    { id := .Painter, title := "Painter", icon := "",
      keywords := ["paint", "wall", "peel", "crack", "color", "primer",
                   "roller", "brush", "exterior", "interior"],
      faqs :=
        [ { id := "area", type := .select, question := "Where do you need painting?",
            options := some ["Interior walls", "Ceiling", "Exterior walls", "Trim/Doors", "Fence/Deck"] },
          { id := "size", type := .select, question := "Approximate area size?",
            options := some ["<100 sq ft", "100-300 sq ft", "300-600 sq ft", "600+ sq ft"] },
          { id := "finish", type := .select, question := "Preferred finish?",
            options := some ["Matte", "Eggshell", "Satin", "Semi-gloss", "Gloss"] },
          { id := "prep", type := .bool, question := "Is surface prep (sanding/patching) needed?" } ] },
    { id := .Driver, title := "Driver", icon := "",
      keywords := ["ride", "drive", "pickup", "drop off", "transport",
                   "deliver", "airport", "taxi", "car"],
      faqs :=
        [ { id := "vehicle", type := .select, question := "Vehicle type needed?",
            options := some ["Sedan", "SUV", "Van/Truck", "No preference"] },
          { id := "distance", type := .select, question := "Trip distance?",
            options := some ["<5 miles", "5-15 miles", "15-30 miles", "30+ miles"] },
          { id := "time", type := .select, question := "When do you need it?",
            options := some ["ASAP", "Today", "This week", "Later date"] },
          { id := "luggage", type := .bool, question := "Do you have large luggage/items?" } ] },
    { id := .General, title := "General Help", icon := "",
      keywords := ["help", "handyman", "task", "assemble", "mount", "fix",
                   "repair", "install", "move"],
      faqs :=
        [ { id := "task", type := .text, question := "Briefly describe the task" },
          { id := "urgency", type := .select, question := "How urgent is it?",
            options := some ["ASAP", "Today", "This week", "Flexible"] },
          { id := "tools", type := .bool, question := "Do you have necessary tools?" } ] } ]

/-- A throwaway `FaqItem` used only as the (never reached) default of total
lookups; all categories of the concrete catalog are non-empty. -/
def dummyFaq : FaqItem :=
  { id := "", type := .text, question := "" }

/-- `CATEGORY_BY_ID`: the catalog indexed by id (the source builds it by a
`reduce` over `CATEGORY_DEFS`; every id occurs exactly once). -/
def CATEGORY_BY_ID (cid : ServiceCategoryId) : CategoryDefinition :=
  ((CATEGORY_DEFS.find? (fun c => c.id == cid)).getD
    { id := cid, title := "", icon := "", keywords := [], faqs := [] })

/-- `interface WorkerProfile` (the fields the core reads). -/
structure WorkerProfile where
  id : String
  name : String
  location : String
  specialty : String
  bio : String
  rating : ℚ
  jobsCompleted : Nat
  available : Bool
  skills : List String
  hourlyRate : ℚ
deriving DecidableEq, Repr

/-- `type JobStatus = 'Pending' | 'Accepted' | 'Completed' | 'Canceled'` -/
inductive JobStatus where
  | Pending | Accepted | Completed | Canceled
deriving DecidableEq, Repr

/-- `interface Job` (timestamps are assigned by the external store and
not modelled). -/
structure Job where
  id : String
  customerId : String
  workerId : String
  category : ServiceCategoryId
  description : String
  status : JobStatus
deriving DecidableEq, Repr

/-! ## Intake answers

JS objects preserve insertion order for string keys and keep the original
position when an existing key is overwritten; we model the `answers` record
as an association list with exactly that update semantics. -/

/-- A recorded answer: `string | boolean`. -/
inductive Ans where
  | str (v : String)
  | bool (b : Bool)
deriving DecidableEq, Repr

/-- `String(v)` for an answer value (JS stringification). -/
def ansToStr : Ans → String
  | .str v => v
  | .bool b => if b then "true" else "false"

/-- The answers record, in insertion order. -/
abbrev Answers := List (String × Ans)

/-- `{ ...m, [k]: v }`: overwrite in place if `k` is present, else append. -/
def setKey (m : Answers) (k : String) (v : Ans) : Answers :=
  if m.any (fun p => p.1 == k) then
    m.map (fun p => if p.1 == k then (k, v) else p)
  else
    m ++ [(k, v)]

/-! ## Classifier (`detectCategory`) -/

/-- The keyword count of one category against the (already lower-cased)
input: `c.keywords.reduce((acc, kw) => acc + (lower.includes(kw) ? 1 : 0), 0)`. -/
def catScore (lower : String) (c : CategoryDefinition) : Nat :=
  c.keywords.foldl (fun acc kw => acc + (if jsIncludes lower kw then 1 else 0)) 0

/-- One step of the classifier's best-so-far fold: replace the running best
only under strict `>`. -/
def bestStep (lower : String) (b : ServiceCategoryId × Nat) (c : CategoryDefinition) :
    ServiceCategoryId × Nat :=
  if catScore lower c > b.2 then (c.id, catScore lower c) else b

/-- `detectCategory` of `src/app.ts`: fold over `CATEGORY_DEFS` starting from
`{ id: 'General', score: 0 }`, return `General` when the best score is 0. -/
def detectCategory (text : String) : ServiceCategoryId :=
  let lower := lowerStr text
  let best := CATEGORY_DEFS.foldl (bestStep lower) (.General, 0)
  if best.2 > 0 then best.1 else .General

/-! ## Matcher / Ranker (`rankWorkers`) -/

/-- The combined keyword list of `rankWorkers`: the active category's
keywords followed by every token of every *string* answer, lower-cased and
split on `/\W+/` (boolean answers contribute nothing). -/
def combinedKeywords (category : ServiceCategoryId) (answers : Answers) : List String :=
  (CATEGORY_BY_ID category).keywords ++
    (answers.map Prod.snd).flatMap (fun v =>
      match v with
      | .str s => splitTokens (lowerStr s)
      | .bool _ => [])

/-- `scoreWorker` of `src/app.ts` (over `ℚ`):
`skillMatch * 3 + specialtyBoost + rating * 1.2 + availabilityBonus`. -/
def scoreWorker (keywords : List String) (category : ServiceCategoryId)
    (w : WorkerProfile) : ℚ :=
  let skillMatch : ℚ :=
    w.skills.foldl (fun acc sk => acc + (if keywords.contains (lowerStr sk) then 1 else 0)) 0
  let specialtyBoost : ℚ := if w.specialty = catStr category then 2 else 0
  let ratingScore : ℚ := w.rating
  let availabilityBonus : ℚ := if w.available then 2 else 0
  skillMatch * 3 + specialtyBoost + ratingScore * 1.2 + availabilityBonus

/-- Insert a scored worker into a list sorted by non-increasing score,
before the first strictly smaller score.  This is the stable descending
order produced by JS `sort((a, b) => b.sc - a.sc)`. -/
def insertDesc (x : WorkerProfile × ℚ) :
    List (WorkerProfile × ℚ) → List (WorkerProfile × ℚ)
  | [] => [x]
  | y :: ys => if x.2 ≥ y.2 then x :: y :: ys else y :: insertDesc x ys

/-- Stable sort by non-increasing score. -/
def sortDesc (l : List (WorkerProfile × ℚ)) : List (WorkerProfile × ℚ) :=
  l.foldr insertDesc []

/-- `rankWorkers` of `src/app.ts`: score, sort descending, take 3. -/
def rankWorkers (workers : List WorkerProfile) (category : ServiceCategoryId)
    (answers : Answers) : List WorkerProfile :=
  let keywords := combinedKeywords category answers
  ((sortDesc (workers.map (fun w => (w, scoreWorker keywords category w)))).take 3).map
    Prod.fst

/-! ## Intake wizard state machine (`AiModalComponent`) -/

/-- `step: 'start' | 'faqs' | 'results'` -/
inductive Step where
  | start | faqs | results
deriving DecidableEq, Repr

/-- `interface ChatState` -/
structure ChatState where
  isOpen : Bool
  step : Step
  category : ServiceCategoryId
  problem : String
  faqIndex : Nat
  answers : Answers
  ranked : List WorkerProfile
deriving DecidableEq, Repr

/-- The whole modal component state: the `ChatState` signal plus the two
auxiliary input signals `draftProblem` and `currentAnswerText`. -/
structure MState where
  chat : ChatState
  draftProblem : String
  currentAnswerText : String
deriving DecidableEq, Repr

/-- The initial signal value of `AiModalComponent.state`. -/
def initialState : MState :=
  { chat := { isOpen := false, step := .start, category := .General, problem := "",
              faqIndex := 0, answers := [], ranked := [] },
    draftProblem := "", currentAnswerText := "" }

/-- `this.faqs()`: the active category's questionnaire. -/
def faqsOf (c : ServiceCategoryId) : List FaqItem :=
  (CATEGORY_BY_ID c).faqs

/-- `this.currentFaq()`: `this.faqs()[faqIndex] ?? this.faqs()[0]`. -/
def currentFaq (c : ChatState) : FaqItem :=
  match (faqsOf c.category).get? c.faqIndex with
  | some f => f
  | none => (faqsOf c.category).headD dummyFaq

/-- `ngOnChanges` with `isOpen = true`: reset the whole session. -/
def openReset (_ : MState) : MState :=
  { chat := { isOpen := true, step := .start, category := .General, problem := "",
              faqIndex := 0, answers := [], ranked := [] },
    draftProblem := "", currentAnswerText := "" }

/-- `close()`: only clears the open flag. -/
def closeOp (s : MState) : MState :=
  { s with chat := { s.chat with isOpen := false } }

/-- `submitProblem()`: trim the draft, classify it, and move to the `faqs`
step unconditionally, resetting the index and the answers. -/
def submitProblem (s : MState) : MState :=
  let prob := jsTrim s.draftProblem
  let cat := detectCategory prob
  { s with
    chat := { s.chat with
                step := .faqs
                problem := prob
                category := cat
                faqIndex := 0
                answers := [] },
    currentAnswerText := "" }

/-- `answerBoolean(v)`: record `v` under the current FAQ's id. -/
def answerBoolean (v : Bool) (s : MState) : MState :=
  { s with chat :=
      { s.chat with answers := setKey s.chat.answers (currentFaq s.chat).id (.bool v) } }

/-- `answerSelect(v)`: record `v` under the current FAQ's id. -/
def answerSelect (v : String) (s : MState) : MState :=
  { s with chat :=
      { s.chat with answers := setKey s.chat.answers (currentFaq s.chat).id (.str v) } }

/-- `prevFaq()`: `Math.max(0, faqIndex - 1)`, which on naturals is the
truncated subtraction `faqIndex - 1`. -/
def prevFaq (s : MState) : MState :=
  { s with chat := { s.chat with faqIndex := s.chat.faqIndex - 1 } }

/-- `nextFaq()`: for a free-text question with a non-empty trimmed pending
value, first record the trimmed value and clear the input; then either
increment the index or (at the last question) rank the current roster and
move to the `results` step. -/
def nextFaq (workers : List WorkerProfile) (s : MState) : MState :=
  let faq := currentFaq s.chat
  let s1 :=
    if faq.type = .text ∧ jsTrim s.currentAnswerText ≠ "" then
      { s with
        chat := { s.chat with
          answers := setKey s.chat.answers faq.id (.str (jsTrim s.currentAnswerText)) },
        currentAnswerText := "" }
    else s
  if s1.chat.faqIndex < (faqsOf s1.chat.category).length - 1 then
    { s1 with chat := { s1.chat with faqIndex := s1.chat.faqIndex + 1 } }
  else
    { s1 with chat := { s1.chat with
                          step := .results
                          ranked := rankWorkers workers s1.chat.category s1.chat.answers } }

/-! ## Booking emitter (`book` / `createJobForWorker`) -/

/-- The description built by `book(worker)`:
`[s.problem, ...Object.entries(s.answers).map(([k, v]) => k + ": " + String(v))].join(" | ")`. -/
def bookDescription (c : ChatState) : String :=
  String.intercalate " | "
    (c.problem :: c.answers.map (fun p => p.1 ++ ": " ++ ansToStr p.2))

/-- `createJobForWorker`: the job record sent to the external store (the id
is the store-generated document id, the customer id the signed-in uid;
timestamps are assigned by the store). -/
def createJobForWorker (uid jobId : String) (worker : WorkerProfile)
    (category : ServiceCategoryId) (description : String) : Job :=
  { id := jobId, customerId := uid, workerId := worker.id,
    category := category, description := description, status := .Pending }

/-- `book(worker)`: the emitted job-creation request. -/
def bookJob (uid jobId : String) (worker : WorkerProfile) (s : MState) : Job :=
  createJobForWorker uid jobId worker s.chat.category (bookDescription s.chat)

/-! ## Reachable wizard states

The operations are available exactly where the component template renders
their triggers: the submit button only in the `start` step, the answer /
back / next buttons only in the `faqs` step, the book buttons only in the
`results` step (for a ranked worker), the two text inputs in their
respective steps, and close / reopen at any time while the modal is open. -/

inductive Reachable : MState → Prop where
  | init : Reachable initialState
  | reopen {s} : Reachable s → Reachable (openReset s)
  | closeW {s} : Reachable s → s.chat.isOpen = true → Reachable (closeOp s)
  | typeDraft {s} (t : String) : Reachable s → s.chat.isOpen = true →
      s.chat.step = .start → Reachable { s with draftProblem := t }
  | typeAnswer {s} (t : String) : Reachable s → s.chat.isOpen = true →
      s.chat.step = .faqs → Reachable { s with currentAnswerText := t }
  | submitP {s} : Reachable s → s.chat.isOpen = true → s.chat.step = .start →
      Reachable (submitProblem s)
  | ansBool {s} (v : Bool) : Reachable s → s.chat.isOpen = true →
      s.chat.step = .faqs → Reachable (answerBoolean v s)
  | ansSel {s} (v : String) : Reachable s → s.chat.isOpen = true →
      s.chat.step = .faqs → Reachable (answerSelect v s)
  | prev {s} : Reachable s → s.chat.isOpen = true → s.chat.step = .faqs →
      Reachable (prevFaq s)
  | next {s} (workers : List WorkerProfile) : Reachable s →
      s.chat.isOpen = true → s.chat.step = .faqs → Reachable (nextFaq workers s)
  | bookW {s} (w : WorkerProfile) : Reachable s → s.chat.isOpen = true →
      s.chat.step = .results → w ∈ s.chat.ranked → Reachable (closeOp s)

/-! ## Job status transitions

The service methods write a fixed status unconditionally; their only call
sites in the application are guarded by the current status: the customer's
Cancel button is rendered only for a job shown with `status === 'Pending'`,
and the worker's Accept button only inside `pendingWorkerJobs()`, which
filters on `status === 'Pending'`.  `completeJob` has no call site. -/

/-- The external job store, keyed by document id. -/
abbrev JobStore := List Job

/-- Status of the job with the given id, if present. -/
def statusOf (st : JobStore) (id : String) : Option JobStatus :=
  (st.find? (fun j => j.id == id)).map Job.status

/-- `cancelJob`: `updateDoc(ref, { status: 'Canceled' })`. -/
def cancelJob (st : JobStore) (id : String) : JobStore :=
  st.map (fun j => if j.id == id then { j with status := .Canceled } else j)

/-- `acceptJob`: `updateDoc(ref, { status: 'Accepted' })`. -/
def acceptJob (st : JobStore) (id : String) : JobStore :=
  st.map (fun j => if j.id == id then { j with status := .Accepted } else j)

/-- `completeJob`: `updateDoc(ref, { status: 'Completed' })` — defined in
the service but never invoked anywhere in the application. -/
def completeJob (st : JobStore) (id : String) : JobStore :=
  st.map (fun j => if j.id == id then { j with status := .Completed } else j)

/-- One observable transition of the job store caused by the program:
creating a job (`createJobForWorker`, with a store-fresh id), cancelling a
job the customer currently sees as Pending, or accepting a job from the
worker's Pending list.  No program event invokes `completeJob`. -/
inductive JStep : JobStore → JobStore → Prop where
  | create {st} (uid jobId : String) (w : WorkerProfile)
      (category : ServiceCategoryId) (description : String)
      (fresh : statusOf st jobId = none) :
      JStep st (createJobForWorker uid jobId w category description :: st)
  | uiCancel {st} (id : String) (h : statusOf st id = some .Pending) :
      JStep st (cancelJob st id)
  | uiAccept {st} (id : String) (h : statusOf st id = some .Pending) :
      JStep st (acceptJob st id)

/-! ## Helper lemmas -/

theorem foldl_add_ite_countP {α : Type} (p : α → Bool) (l : List α) (init : ℚ) :
    l.foldl (fun acc x => acc + (if p x then 1 else 0)) init
      = init + (l.countP p : ℚ) := by
  induction l generalizing init with
  | nil => simp
  | cons x xs ih =>
    simp only [List.foldl_cons, ih, List.countP_cons]
    by_cases h : p x = true <;> simp [h] <;> push_cast <;> ring

theorem foldl_add_ite_countP_nat {α : Type} (p : α → Bool) (l : List α) (init : ℕ) :
    l.foldl (fun acc x => acc + (if p x then 1 else 0)) init
      = init + l.countP p := by
  induction l generalizing init with
  | nil => simp
  | cons x xs ih =>
    simp only [List.foldl_cons, ih, List.countP_cons]
    by_cases h : p x = true <;> simp [h] <;> omega

/-! ## C1: the scoring formula -/

/-- Claim C1. For every worker `w`, category `c` and answers map `a`, the
ranker's score of `w` is `skillMatch * 3 + specialtyBoost + rating * 1.2 +
availabilityBonus`, where `skillMatch` counts the skills of `w` whose
lower-cased form occurs in the combined keyword set (the category's
classification keywords plus the lower-cased `\W+`-split tokens of every
string-valued answer; boolean answers contribute nothing), `specialtyBoost`
is 2 iff `w.specialty` equals `c`, and `availabilityBonus` is 2 iff
`w.available`. -/
theorem scoreWorker_formula (w : WorkerProfile) (c : ServiceCategoryId) (a : Answers) :
    scoreWorker (combinedKeywords c a) c w =
      (w.skills.countP (fun sk => (combinedKeywords c a).contains (lowerStr sk)) : ℚ) * 3
        + (if w.specialty = catStr c then 2 else 0)
        + w.rating * 1.2
        + (if w.available then 2 else 0) := by
  unfold scoreWorker
  rw [foldl_add_ite_countP]
  push_cast
  ring

/-! ## C3: the Start → FAQs transition -/

/-- The wizard state used to refute C3 as stated: the `start` step with a
whitespace-only draft problem. -/
def c3state : MState :=
  { chat := { isOpen := true, step := .start, category := .General, problem := "",
              faqIndex := 0, answers := [], ranked := [] },
    draftProblem := "   ", currentAnswerText := "" }

/-- Claim C3, counterexample. `submitProblem` does not require non-empty
trimmed text: submitting a whitespace-only draft still moves the wizard to
the `faqs` step. -/
theorem submitProblem_empty_still_transitions :
    jsTrim c3state.draftProblem = "" ∧ (submitProblem c3state).chat.step = .faqs := by
  constructor
  · decide
  · rfl

/-- Claim C3, amended. The Start → FAQs transition fires on *every*
submission, regardless of whether the trimmed problem text is empty; its
side effects are exactly: the problem is set to the trimmed text, the
active category to the classifier's result on the trimmed text, the FAQ
index to 0, and the answers are cleared (the open flag and the ranked list
are untouched). -/
theorem submitProblem_effects (s : MState) :
    (submitProblem s).chat.step = .faqs
    ∧ (submitProblem s).chat.problem = jsTrim s.draftProblem
    ∧ (submitProblem s).chat.category = detectCategory (jsTrim s.draftProblem)
    ∧ (submitProblem s).chat.faqIndex = 0
    ∧ (submitProblem s).chat.answers = []
    ∧ (submitProblem s).chat.isOpen = s.chat.isOpen
    ∧ (submitProblem s).chat.ranked = s.chat.ranked :=
  ⟨rfl, rfl, rfl, rfl, rfl, rfl, rfl⟩

/-! ## C6: the booking emitter -/

/-- Claim C6. Booking a worker from the wizard emits a job-creation request
whose description is the original problem text followed by every recorded
answer rendered as `key: value` (value stringified), in the answers'
insertion order, all joined by the fixed delimiter `" | "`, and whose
status is fixed to `Pending`. -/
theorem book_effects (uid jobId : String) (w : WorkerProfile) (s : MState) :
    (bookJob uid jobId w s).description =
      String.intercalate " | "
        (s.chat.problem :: s.chat.answers.map (fun p => p.1 ++ ": " ++ ansToStr p.2))
    ∧ (bookJob uid jobId w s).status = .Pending
    ∧ (bookJob uid jobId w s).workerId = w.id
    ∧ (bookJob uid jobId w s).category = s.chat.category :=
  ⟨rfl, rfl, rfl, rfl⟩

/-! ## C10: answering is a pure record update -/

/-- Claim C10. `answerBoolean` / `answerSelect` modify only the answers map,
setting or overwriting the entry keyed by the current FAQ's identifier; the
open flag, step, category, problem text, FAQ index and ranked list are all
unchanged — recording an answer never advances the wizard by itself. -/
theorem answer_frame (b : Bool) (v : String) (s : MState) :
    (answerBoolean b s).chat.answers
        = setKey s.chat.answers (currentFaq s.chat).id (.bool b)
    ∧ (answerSelect v s).chat.answers
        = setKey s.chat.answers (currentFaq s.chat).id (.str v)
    ∧ (answerBoolean b s).chat.isOpen = s.chat.isOpen
    ∧ (answerBoolean b s).chat.step = s.chat.step
    ∧ (answerBoolean b s).chat.category = s.chat.category
    ∧ (answerBoolean b s).chat.problem = s.chat.problem
    ∧ (answerBoolean b s).chat.faqIndex = s.chat.faqIndex
    ∧ (answerBoolean b s).chat.ranked = s.chat.ranked
    ∧ (answerSelect v s).chat.isOpen = s.chat.isOpen
    ∧ (answerSelect v s).chat.step = s.chat.step
    ∧ (answerSelect v s).chat.category = s.chat.category
    ∧ (answerSelect v s).chat.problem = s.chat.problem
    ∧ (answerSelect v s).chat.faqIndex = s.chat.faqIndex
    ∧ (answerSelect v s).chat.ranked = s.chat.ranked :=
  ⟨rfl, rfl, rfl, rfl, rfl, rfl, rfl, rfl, rfl, rfl, rfl, rfl, rfl, rfl⟩

/-! ## Sorting lemmas for the ranker -/

theorem length_insertDesc (x : WorkerProfile × ℚ) (l : List (WorkerProfile × ℚ)) :
    (insertDesc x l).length = l.length + 1 := by
  induction l with
  | nil => rfl
  | cons y ys ih => by_cases h : x.2 ≥ y.2 <;> simp [insertDesc, h, ih]

theorem length_sortDesc (l : List (WorkerProfile × ℚ)) :
    (sortDesc l).length = l.length := by
  induction l with
  | nil => rfl
  | cons x xs ih => simp [sortDesc, List.foldr_cons, length_insertDesc]
                    simpa [sortDesc] using ih

theorem mem_insertDesc {z x : WorkerProfile × ℚ} {l : List (WorkerProfile × ℚ)}
    (h : z ∈ insertDesc x l) : z = x ∨ z ∈ l := by
  induction l with
  | nil => simpa [insertDesc] using h
  | cons y ys ih =>
    by_cases hc : x.2 ≥ y.2
    · simp only [insertDesc, if_pos hc, List.mem_cons] at h
      simpa [List.mem_cons] using h
    · simp only [insertDesc, if_neg hc, List.mem_cons] at h
      rcases h with h | h
      · right; simp [h]
      · rcases ih h with h' | h'
        · left; exact h'
        · right; simp [h']

theorem mem_sortDesc {z : WorkerProfile × ℚ} {l : List (WorkerProfile × ℚ)}
    (h : z ∈ sortDesc l) : z ∈ l := by
  induction l with
  | nil => simpa [sortDesc] using h
  | cons x xs ih =>
    simp only [sortDesc, List.foldr_cons] at h
    rcases mem_insertDesc h with h' | h'
    · simp [h']
    · simp [ih (by simpa [sortDesc] using h')]

theorem pairwise_insertDesc (x : WorkerProfile × ℚ) (l : List (WorkerProfile × ℚ))
    (h : l.Pairwise (fun a b => a.2 ≥ b.2)) :
    (insertDesc x l).Pairwise (fun a b => a.2 ≥ b.2) := by
  induction l with
  | nil => simp [insertDesc]
  | cons y ys ih =>
    rcases List.pairwise_cons.mp h with ⟨hy, hys⟩
    by_cases hc : x.2 ≥ y.2
    · simp only [insertDesc, if_pos hc]
      refine List.pairwise_cons.mpr ⟨?_, h⟩
      intro z hz
      rcases List.mem_cons.mp hz with rfl | hz'
      · exact hc
      · exact le_trans (hy z hz') hc
    · simp only [insertDesc, if_neg hc]
      refine List.pairwise_cons.mpr ⟨?_, ih hys⟩
      intro z hz
      rcases mem_insertDesc hz with rfl | hz'
      · exact le_of_not_ge hc
      · exact hy z hz'

theorem pairwise_sortDesc (l : List (WorkerProfile × ℚ)) :
    (sortDesc l).Pairwise (fun a b => a.2 ≥ b.2) := by
  induction l with
  | nil => simp [sortDesc]
  | cons x xs ih =>
    simpa [sortDesc] using pairwise_insertDesc x _ (by simpa [sortDesc] using ih)

theorem rank_length (ws : List WorkerProfile) (c : ServiceCategoryId) (a : Answers) :
    (rankWorkers ws c a).length = min 3 ws.length := by
  simp [rankWorkers, length_sortDesc]

theorem rank_pairwise (ws : List WorkerProfile) (c : ServiceCategoryId) (a : Answers) :
    (rankWorkers ws c a).Pairwise (fun w w' =>
      scoreWorker (combinedKeywords c a) c w ≥ scoreWorker (combinedKeywords c a) c w') := by
  unfold rankWorkers
  rw [List.pairwise_map]
  have hsorted := pairwise_sortDesc
    (ws.map (fun w => (w, scoreWorker (combinedKeywords c a) c w)))
  have htake := hsorted.sublist (List.take_sublist 3 _)
  refine htake.imp_of_mem ?_
  intro p q hp hq hpq
  have hp' := mem_sortDesc ((List.take_subset _ _) hp)
  have hq' := mem_sortDesc ((List.take_subset _ _) hq)
  rcases List.mem_map.mp hp' with ⟨wp, _, rfl⟩
  rcases List.mem_map.mp hq' with ⟨wq, _, rfl⟩
  exact hpq

/-! ## C5: shape of the ranked output -/

/-- Claim C5. For every candidate list, category and answers, the ranked
output has length at most `min 3 ws.length`, its elements appear in
non-increasing score order, and ranking the empty list yields the empty
list.  (The embedding is purely functional, so `rankWorkers` cannot mutate
its input.) -/
theorem rank_shape (ws : List WorkerProfile) (c : ServiceCategoryId) (a : Answers) :
    (rankWorkers ws c a).length ≤ min 3 ws.length
    ∧ (rankWorkers ws c a).Pairwise (fun w w' =>
        scoreWorker (combinedKeywords c a) c w ≥ scoreWorker (combinedKeywords c a) c w')
    ∧ rankWorkers [] c a = [] :=
  ⟨le_of_eq (rank_length ws c a), rank_pairwise ws c a, rfl⟩

/-! ## C9: availability separates otherwise-identical workers -/

/-- Claim C9. Two workers identical except for the availability flag differ
by exactly 2 score points, and in any ranked output the unavailable copy
never appears before the available one: whenever both occur, the available
one's position is strictly smaller. -/
theorem availability_never_outranked (w : WorkerProfile) (c : ServiceCategoryId)
    (a : Answers) (ws : List WorkerProfile) (i j : Nat)
    (hi : (rankWorkers ws c a).get? i = some { w with available := true })
    (hj : (rankWorkers ws c a).get? j = some { w with available := false }) :
    scoreWorker (combinedKeywords c a) c { w with available := true }
      = scoreWorker (combinedKeywords c a) c { w with available := false } + 2
    ∧ i < j := by
  have hscore : scoreWorker (combinedKeywords c a) c { w with available := true }
      = scoreWorker (combinedKeywords c a) c { w with available := false } + 2 := by
    simp [scoreWorker]
  refine ⟨hscore, ?_⟩
  by_contra hij
  push_neg at hij
  rcases lt_or_eq_of_le hij with hlt | heq
  · -- the unavailable copy would appear strictly before the available one
    have hp := rank_pairwise ws c a
    rw [List.pairwise_iff_get] at hp
    have hi' := List.get?_eq_some.mp hi
    have hj' := List.get?_eq_some.mp hj
    rcases hi' with ⟨hilen, hig⟩
    rcases hj' with ⟨hjlen, hjg⟩
    have := hp ⟨j, hjlen⟩ ⟨i, hilen⟩ hlt
    rw [hig, hjg] at this
    rw [hscore] at this
    linarith
  · subst heq
    rw [hi] at hj
    have := Option.some.inj hj
    have hav : true = false := congrArg WorkerProfile.available this
    exact Bool.noConfusion hav

/-- A concrete worker used to witness C9. -/
def w9 : WorkerProfile :=
  { id := "w", name := "W", location := "", specialty := "General", bio := "",
    rating := 0, jobsCompleted := 0, available := true, skills := [], hourlyRate := 0 }

/-- Witness for C9, at a two-element roster containing the available and
the unavailable copy of the same worker. -/
theorem availability_never_outranked_witness :
    scoreWorker (combinedKeywords .General []) .General { w9 with available := true }
      = scoreWorker (combinedKeywords .General []) .General { w9 with available := false } + 2
    ∧ 0 < 1 :=
  availability_never_outranked w9 .General []
    [{ w9 with available := false }, { w9 with available := true }] 0 1
    (by norm_num [rankWorkers, sortDesc, insertDesc, scoreWorker, combinedKeywords, w9, catStr])
    (by norm_num [rankWorkers, sortDesc, insertDesc, scoreWorker, combinedKeywords, w9, catStr])

/-! ## Classifier lemmas -/

/-- The highest keyword count over a list of categories. -/
def maxScores (lower : String) (l : List CategoryDefinition) : Nat :=
  l.foldr (fun c m => max (catScore lower c) m) 0

theorem maxScores_cons (lower : String) (c : CategoryDefinition)
    (l : List CategoryDefinition) :
    maxScores lower (c :: l) = max (catScore lower c) (maxScores lower l) := rfl

theorem bestFold_const (lower : String) (l : List CategoryDefinition)
    (b : ServiceCategoryId × Nat) (h : maxScores lower l ≤ b.2) :
    l.foldl (bestStep lower) b = b := by
  induction l with
  | nil => rfl
  | cons c cs ih =>
    rw [maxScores_cons] at h
    have hc : ¬ catScore lower c > b.2 := by omega
    have : bestStep lower b c = b := by simp [bestStep, hc]
    rw [List.foldl_cons, this]
    exact ih (by omega)

theorem bestFold_firstMax (lower : String) (l : List CategoryDefinition) :
    ∀ (b : ServiceCategoryId × Nat), b.2 < maxScores lower l →
    ∃ c, l.find? (fun d => catScore lower d == maxScores lower l) = some c
      ∧ l.foldl (bestStep lower) b = (c.id, maxScores lower l) := by
  induction l with
  | nil => intro b h; simp [maxScores] at h
  | cons c cs ih =>
    intro b h
    rw [maxScores_cons] at h
    by_cases hcs : maxScores lower cs ≤ catScore lower c
    · -- the head attains the maximum
      have hM : max (catScore lower c) (maxScores lower cs) = catScore lower c := by omega
      refine ⟨c, ?_, ?_⟩
      · rw [List.find?_cons_of_pos]
        simp [maxScores_cons, hM]
      · have hgt : catScore lower c > b.2 := by omega
        rw [List.foldl_cons]
        have hb : bestStep lower b c = (c.id, catScore lower c) := by
          simp [bestStep, hgt]
        rw [hb, maxScores_cons, hM]
        exact bestFold_const lower cs (c.id, catScore lower c) (by simpa using hcs)
    · -- the maximum sits strictly inside the tail
      push_neg at hcs
      have hM : max (catScore lower c) (maxScores lower cs) = maxScores lower cs := by
        omega
      have hb2 : (bestStep lower b c).2 < maxScores lower cs := by
        by_cases hgt : catScore lower c > b.2 <;> simp [bestStep, hgt] <;> omega
      rcases ih (bestStep lower b c) hb2 with ⟨c', hfind, hfold⟩
      refine ⟨c', ?_, ?_⟩
      · rw [List.find?_cons_of_neg]
        · rw [maxScores_cons, hM]; exact hfind
        · simp [maxScores_cons, hM]; omega
      · rw [List.foldl_cons, maxScores_cons, hM]
        exact hfold

/-! ## C4: the classifier -/

/-- Claim C4. The classifier is a pure function; `classify("")` and
`classify` of any text whose keyword count is zero for every category
return the fallback `General`; and (tie-breaking) whenever the best score
is positive, the result is the id of the *first* category of the catalog's
enumeration order that attains the highest keyword count — in particular,
on a tie the earlier category wins, because the fold replaces its best only
under strict `>`. -/
theorem detectCategory_spec (text : String) :
    detectCategory "" = .General
    ∧ ((∀ c ∈ CATEGORY_DEFS, catScore (lowerStr text) c = 0) →
        detectCategory text = .General)
    ∧ (∀ c, CATEGORY_DEFS.find?
          (fun d => catScore (lowerStr text) d == maxScores (lowerStr text) CATEGORY_DEFS)
          = some c →
        0 < maxScores (lowerStr text) CATEGORY_DEFS →
        detectCategory text = c.id) := by
  refine ⟨by decide, ?_, ?_⟩
  · intro h0
    have hmax : maxScores (lowerStr text) CATEGORY_DEFS ≤ 0 := by
      have : ∀ l, (∀ c ∈ l, catScore (lowerStr text) c = 0) →
          maxScores (lowerStr text) l ≤ 0 := by
        intro l
        induction l with
        | nil => intro _; simp [maxScores]
        | cons c cs ih =>
          intro hl
          rw [maxScores_cons]
          have h1 := hl c (by simp)
          have h2 := ih (fun d hd => hl d (by simp [hd]))
          omega
      exact this _ h0
    have hdef : detectCategory text =
        (if (List.foldl (bestStep (lowerStr text)) (.General, 0) CATEGORY_DEFS).2 > 0
         then (List.foldl (bestStep (lowerStr text)) (.General, 0) CATEGORY_DEFS).1
         else .General) := rfl
    rw [hdef, bestFold_const _ _ _ (show maxScores (lowerStr text) CATEGORY_DEFS ≤
      (ServiceCategoryId.General, 0).2 from hmax)]
    rfl
  · intro c hfind hpos
    rcases bestFold_firstMax (lowerStr text) CATEGORY_DEFS (.General, 0)
      (by simpa using hpos) with ⟨c', hfind', hfold⟩
    rw [hfind] at hfind'
    have hcc : c = c' := Option.some.inj hfind'
    subst hcc
    have hdef : detectCategory text =
        (if (List.foldl (bestStep (lowerStr text)) (.General, 0) CATEGORY_DEFS).2 > 0
         then (List.foldl (bestStep (lowerStr text)) (.General, 0) CATEGORY_DEFS).1
         else .General) := rfl
    rw [hdef, hfold]
    simp [hpos]

/-- Witness for C4: the empty text and an all-zero text classify to the
fallback, and `"sink outlet"` — a 1–1 tie between Plumber and Electrician —
classifies to the earlier catalog entry, Plumber. -/
theorem detectCategory_spec_witness :
    detectCategory "" = .General
    ∧ detectCategory "zzz qqq" = .General
    ∧ detectCategory "sink outlet" = (CATEGORY_BY_ID .Plumber).id :=
  ⟨(detectCategory_spec "").1,
   (detectCategory_spec "zzz qqq").2.1 (by decide),
   (detectCategory_spec "sink outlet").2.2 (CATEGORY_BY_ID .Plumber) (by decide) (by decide)⟩

/-! ## C2: advancing a free-text question with an empty answer -/

/-- The wizard state used for C2: the `faqs` step of the `General`
category, whose first question (`task`) is free-text, with a
whitespace-only pending answer. -/
def c2state : MState :=
  { chat := { isOpen := true, step := .faqs, category := .General,
              problem := "fix it", faqIndex := 0, answers := [], ranked := [] },
    draftProblem := "", currentAnswerText := "   " }

/-- Claim C2, counterexample. Advancing a free-text question with a
whitespace-only pending answer is *not* a no-op: from index 0 of the
General questionnaire the index moves to 1 (though no answer is recorded). -/
theorem nextFaq_empty_text_not_noop :
    (currentFaq c2state.chat).type = .text
    ∧ jsTrim c2state.currentAnswerText = ""
    ∧ c2state.chat.faqIndex = 0
    ∧ (nextFaq [] c2state).chat.faqIndex = 1 := by
  refine ⟨by decide, by decide, rfl, ?_⟩
  decide

/-- Claim C2, amended. Advancing a free-text question whose pending answer
trims to the empty string records no answer and leaves the input untouched,
but still advances: below the last question the index increments by one and
the step stays `faqs`; at the last question the index is unchanged and the
step moves to `results`.  The operation is total, so no error is raised. -/
theorem nextFaq_empty_text_advances (workers : List WorkerProfile) (s : MState)
    (hstep : s.chat.step = .faqs)
    (htype : (currentFaq s.chat).type = .text)
    (hempty : jsTrim s.currentAnswerText = "") :
    (nextFaq workers s).chat.answers = s.chat.answers
    ∧ (nextFaq workers s).currentAnswerText = s.currentAnswerText
    ∧ (if s.chat.faqIndex < (faqsOf s.chat.category).length - 1
       then (nextFaq workers s).chat.faqIndex = s.chat.faqIndex + 1
            ∧ (nextFaq workers s).chat.step = .faqs
       else (nextFaq workers s).chat.faqIndex = s.chat.faqIndex
            ∧ (nextFaq workers s).chat.step = .results) := by
  have hcond : ¬ ((currentFaq s.chat).type = .text ∧ jsTrim s.currentAnswerText ≠ "") := by
    simp [hempty]
  simp only [nextFaq, if_neg hcond]
  by_cases hidx : s.chat.faqIndex < (faqsOf s.chat.category).length - 1 <;>
    simp [hidx, hstep]

/-- Witness for the amended C2, at the concrete state `c2state`. -/
theorem nextFaq_empty_text_advances_witness :
    (nextFaq [] c2state).chat.answers = c2state.chat.answers
    ∧ (nextFaq [] c2state).currentAnswerText = c2state.currentAnswerText :=
  ⟨(nextFaq_empty_text_advances [] c2state rfl (by decide) (by decide)).1,
   (nextFaq_empty_text_advances [] c2state rfl (by decide) (by decide)).2.1⟩

/-! ## C7: the wizard invariant -/

theorem faqsOf_pos (c : ServiceCategoryId) : 0 < (faqsOf c).length := by
  cases c <;> decide

/-- The spec's standing invariant on the wizard state: the FAQ index is a
valid index into the active category's questionnaire, and the ranked list
is populated only in the `results` step, where it holds at most 3 workers
sorted by non-increasing score (with respect to the state's own category
and answers, which are frozen once the `results` step is entered). -/
def wizardInv (s : MState) : Prop :=
  s.chat.faqIndex < (faqsOf s.chat.category).length
  ∧ (s.chat.ranked ≠ [] → s.chat.step = .results)
  ∧ s.chat.ranked.length ≤ 3
  ∧ s.chat.ranked.Pairwise (fun w w' =>
      scoreWorker (combinedKeywords s.chat.category s.chat.answers) s.chat.category w
        ≥ scoreWorker (combinedKeywords s.chat.category s.chat.answers) s.chat.category w')

theorem ranked_nil_of_not_results (s : MState) (ih : wizardInv s)
    (h : s.chat.step ≠ .results) : s.chat.ranked = [] := by
  by_contra hne
  exact h (ih.2.1 hne)

theorem wizardInv_closeOp (s : MState) (ih : wizardInv s) : wizardInv (closeOp s) := by
  rcases ih with ⟨hA, hB, hC, hD⟩
  exact ⟨hA, hB, hC, hD⟩

theorem wizardInv_submitProblem (s : MState) (hstep : s.chat.step = .start)
    (ih : wizardInv s) : wizardInv (submitProblem s) := by
  have hranked : s.chat.ranked = [] := by
    refine ranked_nil_of_not_results s ih ?_
    rw [hstep]
    simp
  refine ⟨?_, ?_, ?_, ?_⟩ <;> simp [submitProblem, wizardInv, hranked]
  exact faqsOf_pos _

theorem wizardInv_answerBoolean (v : Bool) (s : MState) (hstep : s.chat.step = .faqs)
    (ih : wizardInv s) : wizardInv (answerBoolean v s) := by
  have hranked : s.chat.ranked = [] := by
    refine ranked_nil_of_not_results s ih ?_
    rw [hstep]
    simp
  refine ⟨?_, ?_, ?_, ?_⟩ <;> simp [answerBoolean, hranked]
  exact ih.1

theorem wizardInv_answerSelect (v : String) (s : MState) (hstep : s.chat.step = .faqs)
    (ih : wizardInv s) : wizardInv (answerSelect v s) := by
  have hranked : s.chat.ranked = [] := by
    refine ranked_nil_of_not_results s ih ?_
    rw [hstep]
    simp
  refine ⟨?_, ?_, ?_, ?_⟩ <;> simp [answerSelect, hranked]
  exact ih.1

theorem wizardInv_prevFaq (s : MState) (ih : wizardInv s) : wizardInv (prevFaq s) := by
  rcases ih with ⟨hA, hB, hC, hD⟩
  refine ⟨?_, hB, hC, hD⟩
  simp only [prevFaq]
  omega

theorem wizardInv_nextFaq (workers : List WorkerProfile) (s : MState)
    (hstep : s.chat.step = .faqs) (ih : wizardInv s) : wizardInv (nextFaq workers s) := by
  have hranked : s.chat.ranked = [] := by
    refine ranked_nil_of_not_results s ih ?_
    rw [hstep]
    simp
  have hA := ih.1
  -- the intermediate state after the (possible) free-text recording
  by_cases hcond : ((currentFaq s.chat).type = FaqType.text ∧ jsTrim s.currentAnswerText ≠ "")
  · simp only [nextFaq, if_pos hcond]
    by_cases hidx : s.chat.faqIndex < (faqsOf s.chat.category).length - 1
    · simp only [if_pos hidx]
      refine ⟨by simpa using (by omega : s.chat.faqIndex + 1 < (faqsOf s.chat.category).length), ?_, ?_, ?_⟩ <;>
        simp [hranked]
    · simp only [if_neg hidx]
      refine ⟨by simpa using hA, ?_, ?_, ?_⟩
      · intro _; rfl
      · simpa using le_of_eq_of_le (rank_length _ _ _) (by omega)
      · simpa using rank_pairwise workers _ _
  · simp only [nextFaq, if_neg hcond]
    by_cases hidx : s.chat.faqIndex < (faqsOf s.chat.category).length - 1
    · simp only [if_pos hidx]
      refine ⟨by simpa using (by omega : s.chat.faqIndex + 1 < (faqsOf s.chat.category).length), ?_, ?_, ?_⟩ <;>
        simp [hranked]
    · simp only [if_neg hidx]
      refine ⟨by simpa using hA, ?_, ?_, ?_⟩
      · intro _; rfl
      · simpa using le_of_eq_of_le (rank_length _ _ _) (by omega)
      · simpa using rank_pairwise workers _ _

theorem wizardInv_reachable {s : MState} (h : Reachable s) : wizardInv s := by
  induction h with
  | init =>
    refine ⟨by decide, ?_, ?_, ?_⟩ <;> simp [initialState]
  | reopen _ _ =>
    refine ⟨?_, ?_, ?_, ?_⟩
    · show (0:ℕ) < (faqsOf .General).length
      decide
    · simp [openReset]
    · simp [openReset]
    · simp [openReset]
  | closeW _ _ ih => exact wizardInv_closeOp _ ih
  | typeDraft t _ _ _ ih => exact ih
  | typeAnswer t _ _ _ ih => exact ih
  | submitP _ _ hstep ih => exact wizardInv_submitProblem _ hstep ih
  | ansBool v _ _ hstep ih => exact wizardInv_answerBoolean v _ hstep ih
  | ansSel v _ _ hstep ih => exact wizardInv_answerSelect v _ hstep ih
  | prev _ _ _ ih => exact wizardInv_prevFaq _ ih
  | next workers _ _ hstep ih => exact wizardInv_nextFaq workers _ hstep ih
  | bookW w _ _ _ _ ih => exact wizardInv_closeOp _ ih

/-- Claim C7. In every wizard state reachable by the intake operations
(open/reset, submit problem, answer, advance, retreat, book, close), the
FAQ index is a valid 0-based index into the active category's
questionnaire; retreating from index 0 leaves the index at 0; and the
ranked list is non-empty only in the `results` step, where it holds at
most 3 workers sorted by non-increasing score. -/
theorem reachable_invariant (s : MState) (h : Reachable s) :
    wizardInv s ∧ (s.chat.faqIndex = 0 → (prevFaq s).chat.faqIndex = 0) := by
  refine ⟨wizardInv_reachable h, ?_⟩
  intro h0
  simp [prevFaq, h0]

/-- Witness for C7: the state after opening the wizard and submitting a
problem satisfies the invariant. -/
theorem reachable_invariant_witness :
    wizardInv (submitProblem (openReset initialState))
    ∧ ((submitProblem (openReset initialState)).chat.faqIndex = 0 →
        (prevFaq (submitProblem (openReset initialState))).chat.faqIndex = 0) :=
  reachable_invariant _
    (Reachable.submitP (Reachable.reopen Reachable.init) rfl rfl)

/-! ## C8: job status transitions -/

theorem statusOf_mapSet (st : JobStore) (cid id : String) (ns : JobStatus) :
    statusOf (st.map (fun j => if j.id == cid then { j with status := ns } else j)) id
    = (st.find? (fun j => j.id == id)).map
        (fun j => if j.id == cid then ns else j.status) := by
  unfold statusOf
  rw [List.find?_map]
  have hpred : ((fun (j : Job) => j.id == id) ∘
      (fun j => if j.id == cid then { j with status := ns } else j))
      = (fun (j : Job) => j.id == id) := by
    funext j
    by_cases h : (j.id == cid) = true <;> simp [Function.comp, h]
  rw [hpred, Option.map_map]
  congr 1
  funext j
  by_cases h : (j.id == cid) = true <;> simp [Function.comp, h]

/-- Effect of a guarded status write on an arbitrary observed job: either
the observed job is the written one (then it was Pending before, by the
guard) or its status is unchanged. -/
theorem statusOf_guarded_set (st : JobStore) (cid id : String) (ns : JobStatus)
    (hP : statusOf st cid = some .Pending) (q : JobStatus)
    (hq : statusOf (st.map (fun j => if j.id == cid then { j with status := ns } else j)) id
            = some q) :
    (q = ns ∧ statusOf st id = some .Pending) ∨ statusOf st id = some q := by
  rw [statusOf_mapSet] at hq
  cases hfind : st.find? (fun j => j.id == id) with
  | none => rw [hfind] at hq; simp at hq
  | some j =>
    rw [hfind] at hq
    have hpj := List.find?_some hfind
    have hid : j.id = id := by simpa using hpj
    by_cases hcid : (j.id == cid) = true
    · left
      simp only [Option.map_some'] at hq
      rw [if_pos hcid] at hq
      have hcid' : j.id = cid := by simpa using hcid
      refine ⟨(Option.some.inj hq).symm, ?_⟩
      have hidcid : id = cid := hid ▸ hcid'
      rw [hidcid]
      exact hP
    · right
      simp only [Option.map_some'] at hq
      rw [if_neg hcid] at hq
      unfold statusOf
      rw [hfind]
      simp [hq]

/-- Claim C8. Under the program's status-transition events — creating a job
(always Pending), the customer cancelling a job currently shown as Pending,
and a worker accepting a job from the Pending-filtered list (`completeJob`
has no call site) — a job newly reaches `Canceled` only from `Pending`,
newly reaches `Accepted` only from `Pending`, and never newly reaches
`Completed` (so in particular only from `Accepted`); and the core only
constructs jobs with status `Pending`. -/
theorem job_status_forward (st st' : JobStore) (id : String) (h : JStep st st') :
    (statusOf st' id = some .Canceled →
        statusOf st id = some .Canceled ∨ statusOf st id = some .Pending)
    ∧ (statusOf st' id = some .Accepted →
        statusOf st id = some .Accepted ∨ statusOf st id = some .Pending)
    ∧ (statusOf st' id = some .Completed → statusOf st id = some .Completed)
    ∧ (∀ uid jobId w cat desc, (createJobForWorker uid jobId w cat desc).status
        = .Pending) := by
  cases h with
  | create uid jobId w cat desc fresh =>
    have hcons : ∀ q : JobStatus,
        statusOf (createJobForWorker uid jobId w cat desc :: st) id = some q →
        (q = .Pending) ∨ statusOf st id = some q := by
      intro q hq
      unfold statusOf at hq
      rw [List.find?_cons] at hq
      by_cases hid : ((createJobForWorker uid jobId w cat desc).id == id) = true
      · simp only [hid] at hq
        left
        exact (Option.some.inj hq).symm
      · simp only [Bool.not_eq_true] at hid
        simp only [hid] at hq
        right
        exact hq
    refine ⟨?_, ?_, ?_, fun _ _ _ _ _ => rfl⟩
    · intro hc
      rcases hcons _ hc with h' | h'
      · exact JobStatus.noConfusion h'
      · exact Or.inl h'
    · intro hc
      rcases hcons _ hc with h' | h'
      · exact JobStatus.noConfusion h'
      · exact Or.inl h'
    · intro hc
      rcases hcons _ hc with h' | h'
      · exact JobStatus.noConfusion h'
      · exact h'
  | uiCancel cid hP =>
    refine ⟨?_, ?_, ?_, fun _ _ _ _ _ => rfl⟩
    · intro hc
      rcases statusOf_guarded_set st cid id .Canceled hP _ hc with ⟨_, h'⟩ | h'
      · exact Or.inr h'
      · exact Or.inl h'
    · intro hc
      rcases statusOf_guarded_set st cid id .Canceled hP _ hc with ⟨h', _⟩ | h'
      · exact JobStatus.noConfusion h'
      · exact Or.inl h'
    · intro hc
      rcases statusOf_guarded_set st cid id .Canceled hP _ hc with ⟨h', _⟩ | h'
      · exact JobStatus.noConfusion h'
      · exact h'
  | uiAccept cid hP =>
    refine ⟨?_, ?_, ?_, fun _ _ _ _ _ => rfl⟩
    · intro hc
      rcases statusOf_guarded_set st cid id .Accepted hP _ hc with ⟨h', _⟩ | h'
      · exact JobStatus.noConfusion h'
      · exact Or.inl h'
    · intro hc
      rcases statusOf_guarded_set st cid id .Accepted hP _ hc with ⟨_, h'⟩ | h'
      · exact Or.inr h'
      · exact Or.inl h'
    · intro hc
      rcases statusOf_guarded_set st cid id .Accepted hP _ hc with ⟨h', _⟩ | h'
      · exact JobStatus.noConfusion h'
      · exact h'

/-- The one-job store used to witness C8. -/
def c8store : JobStore :=
  [{ id := "j1", customerId := "c", workerId := "w", category := .General,
     description := "d", status := .Pending }]

/-- Witness for C8: cancelling the Pending job `j1` — the theorem applied
to that step shows the job was Canceled or Pending beforehand. -/
theorem job_status_forward_witness :
    statusOf c8store "j1" = some .Canceled ∨ statusOf c8store "j1" = some .Pending :=
  (job_status_forward c8store (cancelJob c8store "j1") "j1"
    (JStep.uiCancel "j1" (by decide))).1 (by decide)

end NeedAHand
